import Mathlib

/-!
Verification of the padded byte-encoding codec and the typed JSON
serialization layer of `src/electionguard/serialize.py`.

Python `bytes` values are modelled as `List ℕ` (each entry a byte value),
Python `str` values as `List Char`, and machine integers as `ℕ` / `ℤ`.
Fallible operations (`raise`) are modelled with `Except`.

The padding codec (`_add_padding` / `_remove_padding`, `PaddedDataSize`,
`TruncationError`) is translated directly from the source.  The JSON layer
(`json.loads` / `json.dumps` / `dacite.from_dict` and the coercion
registry) lives in external libraries, not in the repository source, so it
is modelled from the specification; those definitions carry a
`Modelled from the spec:` doc comment.
-/

set_option maxRecDepth 100000
set_option linter.unnecessarySeqFocus false

/-- Python `bytes` as a list of byte values. -/
abbrev PyBytes := List ℕ

/-- serialize.py: `_PAD_BYTE = b"\x00"`. -/
def _PAD_BYTE : ℕ := 0

/-- serialize.py: `PAD_INDICATOR_SIZE = 2`. -/
def PAD_INDICATOR_SIZE : ℕ := 2

namespace PaddedDataSize

/-- serialize.py: `class PaddedDataSize(IntEnum): Bytes_512 = 512 - PAD_INDICATOR_SIZE`.
The enum member's integer value (510) is what the codec receives as `size`. -/
def Bytes_512 : ℕ := 512 - PAD_INDICATOR_SIZE

end PaddedDataSize

/-- serialize.py: `class TruncationError(ValueError)`; the carried message is the
string passed to the constructor. -/
structure TruncationError where
  message : String
deriving DecidableEq

/-- The literal passed to `TruncationError` in `_add_padding`.  The Python
source is a plain string literal (not an f-string), so the text
`\x7bsize\x7d` is kept verbatim and never interpolated. -/
def truncation_message : String :=
  "Padded data exceeds allowed padded data size of \x7bsize\x7d."

/-- `n.to_bytes(PAD_INDICATOR_SIZE, byteorder="big")` (`BYTE_ORDER` is
big-endian per the spec).  Faithful for `n < 2 ^ 16`; Python raises
`OverflowError` beyond that, which no supported block-size class reaches. -/
def toBytes2 (n : ℕ) : PyBytes := [n / 256 % 256, n % 256]

/-- `int.from_bytes(l[:PAD_INDICATOR_SIZE], byteorder="big")`: big-endian value
of the first at-most-two bytes (0 for the empty string, the single byte for a
one-byte string). -/
def fromBytes2 (l : PyBytes) : ℕ :=
  match l with
  | [] => 0
  | [b0] => b0
  | b0 :: b1 :: _ => b0 * 256 + b1

/-- serialize.py `_add_padding(message, size, allow_truncation=False)`:
reject (or truncate) an over-capacity message, then prepend the 2-byte
big-endian padding-length indicator and append `padding_length` zero bytes. -/
def _add_padding (message : PyBytes) (size : ℕ) (allow_truncation : Bool) :
    Except TruncationError PyBytes :=
  let finish := fun (message_length : ℕ) =>
    let padding_length := size - message_length
    let leading_byte := toBytes2 padding_length
    Except.ok (leading_byte ++ message.take message_length ++
      List.replicate padding_length _PAD_BYTE)
  if message.length > size then
    if allow_truncation then finish size
    else Except.error ⟨truncation_message⟩
  else finish message.length

/-- The effective stop position of a Python slice `l[_ : stop]` on a list of
length `len`: negative stops wrap around by `+ len` (clamped at 0), other
stops are clamped at `len`. -/
def pyStop (len : ℕ) (stop : ℤ) : ℕ :=
  if stop < 0 then ((len : ℤ) + stop).toNat else min stop.toNat len

/-- Python slice `l[start : stop]` with a nonnegative `start` index and an
arbitrary (possibly negative) `stop` index; never fails. -/
def pySlice (l : PyBytes) (start : ℕ) (stop : ℤ) : PyBytes :=
  (l.take (pyStop l.length stop)).drop start

/-- serialize.py `_remove_padding(padded, size)`: read the 2-byte indicator,
compute `message_end = size + PAD_INDICATOR_SIZE - padding_length` (a Python
int, so possibly negative) and return `padded[PAD_INDICATOR_SIZE:message_end]`.
No validation of the indicator is performed. -/
def _remove_padding (padded : PyBytes) (size : ℕ) : PyBytes :=
  let padding_length := fromBytes2 (padded.take PAD_INDICATOR_SIZE)
  let message_end : ℤ :=
    (size : ℤ) + (PAD_INDICATOR_SIZE : ℤ) - (padding_length : ℤ)
  pySlice padded PAD_INDICATOR_SIZE message_end

/-- The 512-byte block obtained by padding the 3-byte payload `b"abc"`
(bytes 97, 98, 99) against the `Bytes_512` class. -/
def abcBlock : PyBytes := toBytes2 507 ++ [97, 98, 99] ++ List.replicate 507 _PAD_BYTE

/-! ### Text utilities shared by the modelled JSON layer -/

/-- JSON whitespace characters skipped between tokens. -/
def isWsChar (c : Char) : Bool := c = ' ' || c = '\n' || c = '\t' || c = '\r'

/-- Drop leading whitespace. -/
def skipWs : List Char → List Char
  | [] => []
  | c :: rest => if isWsChar c then skipWs rest else c :: rest

/-- Numeric value of a decimal digit character. -/
def digitVal (c : Char) : ℕ := c.toNat - 48

/-- Digit-by-digit accumulator loop for `natChars`; the fuel argument only
bounds the recursion and `n + 1` is always enough. -/
def natCharsGo : ℕ → ℕ → List Char → List Char
  | 0, _, acc => acc
  | f + 1, n, acc =>
    if n < 10 then Nat.digitChar n :: acc
    else natCharsGo f (n / 10) (Nat.digitChar (n % 10) :: acc)

/-- Decimal rendering of a natural number (most significant digit first). -/
def natChars (n : ℕ) : List Char := natCharsGo (n + 1) n []

/-- Value of a big-endian list of decimal digit characters. -/
def charsToNat (l : List Char) : ℕ :=
  l.foldl (fun a c => a * 10 + digitVal c) 0

/-- Split a character list into its maximal leading run of decimal digits and
the remainder. -/
def takeDigits : List Char → List Char × List Char
  | [] => ([], [])
  | c :: rest =>
    if c.isDigit then
      let p := takeDigits rest
      (c :: p.1, p.2)
    else ([], c :: rest)

/-- Parse a nonempty run of decimal digits into a natural number. -/
def parseNatTok (l : List Char) : Option (ℕ × List Char) :=
  let p := takeDigits l
  if p.1 = [] then none else some (charsToNat p.1, p.2)

/-- Escape one character for inclusion in a JSON string literal. -/
def escChar (c : Char) : List Char :=
  if c = '\"' ∨ c = '\\' then ['\\', c] else [c]

/-- Escape a character list for inclusion in a JSON string literal. -/
def escChars (s : List Char) : List Char := (s.map escChar).flatten

/-- Render a JSON string literal (opening quote, escaped body, closing quote). -/
def printKey (k : List Char) : List Char := '\"' :: escChars k ++ ['\"']

/-- Parse the body of a JSON string literal after the opening quote, up to and
including the closing quote; returns the unescaped characters and the rest. -/
def parseStrBody : List Char → Option (List Char × List Char)
  | [] => none
  | c :: rest =>
    if c = '\"' then some ([], rest)
    else if c = '\\' then
      match rest with
      | [] => none
      | e :: rest2 =>
        if e = '\"' ∨ e = '\\' then
          (parseStrBody rest2).map (fun p => (e :: p.1, p.2))
        else none
    else (parseStrBody rest).map (fun p => (c :: p.1, p.2))

/-- Parse an entire character list as a nonempty decimal numeral. -/
def parseDecimal (s : List Char) : Option ℕ :=
  if s ≠ [] ∧ s.all Char.isDigit then some (charsToNat s) else none

/-- Two-digit zero-padded decimal field (`%02d`, faithful for `n < 100`). -/
def pad2 (n : ℕ) : List Char :=
  [Nat.digitChar (n / 10 % 10), Nat.digitChar (n % 10)]

/-- Four-digit zero-padded decimal field (`%04d`, faithful for `n < 10000`). -/
def pad4 (n : ℕ) : List Char :=
  [Nat.digitChar (n / 1000 % 10), Nat.digitChar (n / 100 % 10),
    Nat.digitChar (n / 10 % 10), Nat.digitChar (n % 10)]

/-- Modelled from the spec: the format direction of the registry's datetime
entry — `datetime.isoformat()` as invoked by the pydantic default encoder,
`YYYY-MM-DDTHH:MM:SS` (second resolution, the canonical form for the
whole-second datetimes modelled here). -/
def isoChars (year month day hour minute second : ℕ) : List Char :=
  pad4 year ++ '-' :: pad2 month ++ '-' :: pad2 day ++ 'T' :: pad2 hour ++
    ':' :: pad2 minute ++ ':' :: pad2 second

/-- Modelled from the spec: the parse direction of the registry's datetime
entry (`dateutil.parser.parse` via `type_hooks`), restricted to the canonical
`YYYY-MM-DDTHH:MM:SS` form that the format direction emits; returns the six
fields or `none` on any other shape. -/
def parseIso (s : List Char) :
    Option (ℕ × ℕ × ℕ × ℕ × ℕ × ℕ) :=
  match s with
  | [y1, y2, y3, y4, c1, mo1, mo2, c2, d1, d2, c3, h1, h2, c4, mi1, mi2, c5,
      s1, s2] =>
    if y1.isDigit && y2.isDigit && y3.isDigit && y4.isDigit &&
        mo1.isDigit && mo2.isDigit && d1.isDigit && d2.isDigit &&
        h1.isDigit && h2.isDigit && mi1.isDigit && mi2.isDigit &&
        s1.isDigit && s2.isDigit &&
        (c1 = '-' : Bool) && (c2 = '-' : Bool) && (c3 = 'T' : Bool) &&
        (c4 = ':' : Bool) && (c5 = ':' : Bool) then
      some (charsToNat [y1, y2, y3, y4], charsToNat [mo1, mo2],
        charsToNat [d1, d2], charsToNat [h1, h2], charsToNat [mi1, mi2],
        charsToNat [s1, s2])
    else none
  | _ => none

/-! ### Modelled JSON documents

Modelled from the spec: the JSON text layer used by `to_raw` / `from_raw`
(Python's `json.dumps` / `json.loads`) is library code absent from the
repository source.  JSON values are the usual null / boolean / integer /
string / array / object trees. -/

mutual
inductive Json where
  | null : Json
  | bool (b : Bool) : Json
  | num (n : ℤ) : Json
  | str (s : List Char) : Json
  | arr (items : JsonArr) : Json
  | obj (entries : JsonObj) : Json
inductive JsonArr where
  | nil : JsonArr
  | cons (hd : Json) (tl : JsonArr) : JsonArr
inductive JsonObj where
  | nil : JsonObj
  | cons (key : List Char) (val : Json) (tl : JsonObj) : JsonObj
end

mutual
/-- Modelled from the spec: deterministic JSON text for a JSON value
(`json.dumps`; the fixed indentation width is semantically inert whitespace
and is taken to be zero here). -/
def printJson : Json → List Char
  | .null => 'n' :: "ull".toList
  | .bool b => if b then 't' :: "rue".toList else 'f' :: "alse".toList
  | .num n => if n < 0 then '-' :: natChars (-n).toNat else natChars n.toNat
  | .str s => printKey s
  | .arr xs => '[' :: printItems xs ++ [']']
  | .obj kvs => '\x7b' :: printPairs kvs ++ ['\x7d']
/-- Comma-separated rendering of array items. -/
def printItems : JsonArr → List Char
  | .nil => []
  | .cons v tl =>
    printJson v ++ (match tl with | .nil => [] | .cons _ _ => ',' :: printItems tl)
/-- Comma-separated rendering of object entries (`"key":value`). -/
def printPairs : JsonObj → List Char
  | .nil => []
  | .cons k v tl =>
    printKey k ++ ':' :: printJson v ++
      (match tl with | .nil => [] | .cons _ _ _ => ',' :: printPairs tl)
end

mutual
/-- Modelled from the spec: recursive-descent JSON value parsing with a fuel
bound (`json.loads` is library code absent from the source).  Returns the
parsed value and the unconsumed remainder, or `none` on malformed input. -/
def parseValue : ℕ → List Char → Option (Json × List Char)
  | 0, _ => none
  | fuel + 1, l =>
    match skipWs l with
    | [] => none
    | c :: rest =>
      if c = 'n' then
        match rest with
        | 'u' :: 'l' :: 'l' :: r => some (.null, r)
        | _ => none
      else if c = 't' then
        match rest with
        | 'r' :: 'u' :: 'e' :: r => some (.bool true, r)
        | _ => none
      else if c = 'f' then
        match rest with
        | 'a' :: 'l' :: 's' :: 'e' :: r => some (.bool false, r)
        | _ => none
      else if c = '\"' then (parseStrBody rest).map (fun p => (.str p.1, p.2))
      else if c = '[' then
        match skipWs rest with
        | [] => none
        | c2 :: r2 =>
          if c2 = ']' then some (.arr .nil, r2)
          else (parseItems fuel rest).map (fun p => (.arr p.1, p.2))
      else if c = '\x7b' then
        match skipWs rest with
        | [] => none
        | c2 :: r2 =>
          if c2 = '\x7d' then some (.obj .nil, r2)
          else (parsePairs fuel rest).map (fun p => (.obj p.1, p.2))
      else if c = '-' then
        (parseNatTok rest).map (fun p => (.num (-(p.1 : ℤ)), p.2))
      else if c.isDigit then
        (parseNatTok (c :: rest)).map (fun p => (.num ((p.1 : ℕ) : ℤ), p.2))
      else none
/-- Parse one or more comma-separated array items and the closing bracket. -/
def parseItems : ℕ → List Char → Option (JsonArr × List Char)
  | 0, _ => none
  | fuel + 1, l =>
    (parseValue fuel l).bind (fun p =>
      match skipWs p.2 with
      | [] => none
      | c :: r =>
        if c = ',' then (parseItems fuel r).map (fun q => (.cons p.1 q.1, q.2))
        else if c = ']' then some (.cons p.1 .nil, r)
        else none)
/-- Parse one or more comma-separated `"key":value` entries and the closing
brace. -/
def parsePairs : ℕ → List Char → Option (JsonObj × List Char)
  | 0, _ => none
  | fuel + 1, l =>
    match skipWs l with
    | [] => none
    | c :: rest =>
      if c = '\"' then
        (parseStrBody rest).bind (fun pk =>
          match skipWs pk.2 with
          | [] => none
          | c2 :: r2 =>
            if c2 = ':' then
              (parseValue fuel r2).bind (fun pv =>
                match skipWs pv.2 with
                | [] => none
                | c3 :: r3 =>
                  if c3 = ',' then
                    (parsePairs fuel r3).map (fun q => (.cons pk.1 pv.1 q.1, q.2))
                  else if c3 = '\x7d' then some (.cons pk.1 pv.1 .nil, r3)
                  else none)
            else none)
      else none
end

/-- Modelled from the spec: `json.loads` — parse a whole text as one JSON
document, rejecting trailing garbage.  The fuel `2 * length + 2` dominates the
depth any parse can reach, since every nesting level consumes input. -/
def jsonLoads (text : List Char) : Option Json :=
  match parseValue (2 * text.length + 2) text with
  | some p => if skipWs p.2 = [] then some p.1 else none
  | none => none

mutual
/-- Fuel sufficient for `parseValue` to reparse a printed value. -/
def jsonFuel : Json → ℕ
  | .null | .bool _ | .num _ | .str _ => 1
  | .arr xs => itemsFuel xs + 1
  | .obj kvs => pairsFuel kvs + 1
/-- Fuel sufficient for `parseItems` to reparse printed items. -/
def itemsFuel : JsonArr → ℕ
  | .nil => 0
  | .cons v tl => jsonFuel v + itemsFuel tl + 1
/-- Fuel sufficient for `parsePairs` to reparse printed entries. -/
def pairsFuel : JsonObj → ℕ
  | .nil => 0
  | .cons _ v tl => jsonFuel v + pairsFuel tl + 1
end

/-! ### Modelled typed serializer

Modelled from the spec: the supported domain of the typed serializer — values
with a structural JSON mapping (booleans, integers, strings, lists, records)
or a coercion-registry entry (datetimes as ISO-8601 strings, large integers
and group elements as string-coded numerals, integer-cast enumerations), per
the `_config` cast list and its `type_hooks` entry for `datetime`.
`dacite.from_dict` is library code absent from the source. -/

mutual
inductive DomainType where
  | tBool : DomainType
  | tInt : DomainType
  | tStr : DomainType
  | tBigInteger : DomainType
  | tElementModP : DomainType
  | tElementModQ : DomainType
  | tDatetime : DomainType
  | tEnum (variants : ℕ) : DomainType
  | tList (elem : DomainType) : DomainType
  | tRecord (fields : Fields) : DomainType
inductive Fields where
  | nil : Fields
  | cons (name : List Char) (ty : DomainType) (tl : Fields) : Fields
end

mutual
inductive DomainValue where
  | vBool (b : Bool) : DomainValue
  | vInt (n : ℤ) : DomainValue
  | vStr (s : List Char) : DomainValue
  | vBigInteger (n : ℕ) : DomainValue
  | vElementModP (n : ℕ) : DomainValue
  | vElementModQ (n : ℕ) : DomainValue
  | vDatetime (year month day hour minute second : ℕ) : DomainValue
  | vEnum (k : ℕ) : DomainValue
  | vList (items : ValList) : DomainValue
  | vRecord (fields : FieldVals) : DomainValue
inductive ValList where
  | nil : ValList
  | cons (hd : DomainValue) (tl : ValList) : ValList
inductive FieldVals where
  | nil : FieldVals
  | cons (name : List Char) (v : DomainValue) (tl : FieldVals) : FieldVals
end

mutual
/-- Modelled from the spec: structural/registry conversion of a domain value
to a JSON value (the format direction of the coercion registry, as used by
`json.dumps(..., default=pydantic_encoder)`). -/
def toJson : DomainValue → Json
  | .vBool b => .bool b
  | .vInt n => .num n
  | .vStr s => .str s
  | .vBigInteger n => .str (natChars n)
  | .vElementModP n => .str (natChars n)
  | .vElementModQ n => .str (natChars n)
  | .vDatetime y mo d h mi s => .str (isoChars y mo d h mi s)
  | .vEnum k => .num ((k : ℕ) : ℤ)
  | .vList items => .arr (toJsonArr items)
  | .vRecord fields => .obj (toJsonObj fields)
/-- JSON array for a list of domain values. -/
def toJsonArr : ValList → JsonArr
  | .nil => .nil
  | .cons v tl => .cons (toJson v) (toJsonArr tl)
/-- JSON object for the fields of a record value. -/
def toJsonObj : FieldVals → JsonObj
  | .nil => .nil
  | .cons name v tl => .cons name (toJson v) (toJsonObj tl)
end

/-- First value bound to `name` in a JSON object, if any. -/
def objLookup (name : List Char) : JsonObj → Option Json
  | .nil => none
  | .cons k v tl => if k = name then some v else objLookup name tl

mutual
/-- Fuel for reconstructing a value from a JSON tree: one unit per node. -/
def djFuel : Json → ℕ
  | .null | .bool _ | .num _ | .str _ => 1
  | .arr xs => arrDjFuel xs + 1
  | .obj kvs => objDjFuel kvs + 1
/-- Fuel for an array's elements. -/
def arrDjFuel : JsonArr → ℕ
  | .nil => 1
  | .cons v tl => djFuel v + arrDjFuel tl + 1
/-- Fuel for an object's entries. -/
def objDjFuel : JsonObj → ℕ
  | .nil => 1
  | .cons _ v tl => djFuel v + objDjFuel tl + 1
end

mutual
/-- Modelled from the spec: type-directed reconstruction of a domain value
from a JSON value (`dacite.from_dict` with the registry's parse functions),
with a fuel bound on the recursion.  Extra object keys are ignored; a shape
mismatch yields `none`. -/
def fromJsonF : ℕ → DomainType → Json → Option DomainValue
  | 0, _, _ => none
  | fuel + 1, t, j =>
    match t, j with
    | .tBool, .bool b => some (.vBool b)
    | .tInt, .num n => some (.vInt n)
    | .tStr, .str s => some (.vStr s)
    | .tBigInteger, .str s => (parseDecimal s).map DomainValue.vBigInteger
    | .tElementModP, .str s => (parseDecimal s).map DomainValue.vElementModP
    | .tElementModQ, .str s => (parseDecimal s).map DomainValue.vElementModQ
    | .tDatetime, .str s =>
      (parseIso s).map (fun p =>
        DomainValue.vDatetime p.1 p.2.1 p.2.2.1 p.2.2.2.1 p.2.2.2.2.1 p.2.2.2.2.2)
    | .tEnum variants, .num n =>
      if 0 ≤ n ∧ n < (variants : ℤ) then some (.vEnum n.toNat) else none
    | .tList elem, .arr xs => (fromJsonArrF fuel elem xs).map DomainValue.vList
    | .tRecord fields, .obj kvs =>
      (fromJsonFieldsF fuel fields kvs).map DomainValue.vRecord
    | _, _ => none
/-- Elementwise reconstruction of a homogeneous list. -/
def fromJsonArrF : ℕ → DomainType → JsonArr → Option ValList
  | 0, _, _ => none
  | _ + 1, _, .nil => some .nil
  | fuel + 1, elem, .cons v tl =>
    (fromJsonF fuel elem v).bind (fun dv =>
      (fromJsonArrF fuel elem tl).map (fun dtl => ValList.cons dv dtl))
/-- Fieldwise reconstruction of a record from an object, looking each declared
field up by name. -/
def fromJsonFieldsF : ℕ → Fields → JsonObj → Option FieldVals
  | 0, _, _ => none
  | _ + 1, .nil, _ => some .nil
  | fuel + 1, .cons name t tlF, kvs =>
    (objLookup name kvs).bind (fun j =>
      (fromJsonF fuel t j).bind (fun dv =>
        (fromJsonFieldsF fuel tlF kvs).map (fun dtl => FieldVals.cons name dv dtl)))
end

/-- Modelled from the spec: `dacite.from_dict` entry point.  The fuel
`djFuel j` (one unit per JSON node) dominates the recursion for the
well-formed types considered here, whose record field names are distinct. -/
def fromJson (t : DomainType) (j : Json) : Option DomainValue :=
  fromJsonF (djFuel j) t j

/-- The declared field names of a record type. -/
def namesOf : Fields → List (List Char)
  | .nil => []
  | .cons name _ tl => name :: namesOf tl

/-- `name` does not occur among the declared fields. -/
def nameNotIn (name : List Char) : Fields → Bool
  | .nil => true
  | .cons n _ tl => (decide (n ≠ name)) && nameNotIn name tl

/-- The declared field names are pairwise distinct. -/
def nodupNames : Fields → Bool
  | .nil => true
  | .cons n _ tl => nameNotIn n tl && nodupNames tl

mutual
/-- A domain value inhabits a domain type (record field names must be
distinct, as for Python dataclass fields). -/
def hasType : DomainValue → DomainType → Bool
  | .vBool _, .tBool => true
  | .vInt _, .tInt => true
  | .vStr _, .tStr => true
  | .vBigInteger _, .tBigInteger => true
  | .vElementModP _, .tElementModP => true
  | .vElementModQ _, .tElementModQ => true
  | .vDatetime y mo d h mi s, .tDatetime =>
    decide (1 ≤ y) && decide (y ≤ 9999) && decide (1 ≤ mo) && decide (mo ≤ 12) &&
      decide (1 ≤ d) && decide (d ≤ 31) && decide (h ≤ 23) && decide (mi ≤ 59) &&
      decide (s ≤ 59)
  | .vEnum k, .tEnum variants => decide (k < variants)
  | .vList items, .tList elem => hasTypeList items elem
  | .vRecord fvs, .tRecord fields => hasTypeFields fvs fields && nodupNames fields
  | _, _ => false
/-- Every element inhabits the element type. -/
def hasTypeList : ValList → DomainType → Bool
  | .nil, _ => true
  | .cons v tl, elem => hasType v elem && hasTypeList tl elem
/-- Field values align with the declared fields, name for name. -/
def hasTypeFields : FieldVals → Fields → Bool
  | .nil, .nil => true
  | .cons n v tlv, .cons n2 t tlf =>
    (decide (n = n2)) && hasType v t && hasTypeFields tlv tlf
  | _, _ => false
end

/-- Modelled from the spec: the two deserialization failure kinds —
malformed JSON text (`ParseError`) and a value with no structural or
registered mapping (`UnsupportedTypeError`). -/
inductive DeserializeError where
  | parseError : DeserializeError
  | unsupportedTypeError : DeserializeError
deriving DecidableEq

/-- serialize.py `to_raw(data)`: serialize a domain value to JSON text
(`json.dumps(data, indent=_indent, default=pydantic_encoder)`; the JSON text
layer is modelled from the spec). -/
def to_raw (data : DomainValue) : List Char := printJson (toJson data)

/-- serialize.py `from_raw(type_, raw)`: parse the text as JSON
(`json.loads`, failing with a parse error on malformed input), then
reconstruct a value of the requested type (`dacite.from_dict`). -/
def from_raw (type_ : DomainType) (raw : List Char) :
    Except DeserializeError DomainValue :=
  match jsonLoads raw with
  | none => Except.error .parseError
  | some j =>
    match fromJson type_ j with
    | none => Except.error .unsupportedTypeError
    | some v => Except.ok v

/-- UTF-8 encoding of one character (`BYTE_ENCODING` is UTF-8 per the spec). -/
def utf8Char (c : Char) : PyBytes :=
  let v := c.toNat
  if v < 128 then [v]
  else if v < 2048 then [192 + v / 64, 128 + v % 64]
  else if v < 65536 then [224 + v / 4096, 128 + v / 64 % 64, 128 + v % 64]
  else [240 + v / 262144, 128 + v / 4096 % 64, 128 + v / 64 % 64, 128 + v % 64]

/-- UTF-8 encoding of a character list (`str.encode(BYTE_ENCODING)`). -/
def utf8Encode (s : List Char) : PyBytes := (s.map utf8Char).flatten

/-- serialize.py `padded_encode(data, size)`: serialize to JSON text, encode
as UTF-8 bytes and pad — `_add_padding` is called without the
`allow_truncation` argument, so with its default `False`. -/
def padded_encode (data : DomainValue) (size : ℕ) : Except TruncationError PyBytes :=
  _add_padding (utf8Encode (to_raw data)) size false

/-- A character list that does not begin with a decimal digit (so a numeral
followed by it parses unambiguously). -/
def noDigitHead : List Char → Bool
  | [] => true
  | c :: _ => !c.isDigit

mutual
/-- Fuel consumed by `fromJsonF` when reconstructing this value. -/
def valFuel : DomainValue → ℕ
  | .vBool _ | .vInt _ | .vStr _ | .vBigInteger _ | .vElementModP _
  | .vElementModQ _ | .vDatetime _ _ _ _ _ _ | .vEnum _ => 1
  | .vList items => listValFuel items + 1
  | .vRecord fvs => fieldsValFuel fvs + 1
/-- Fuel consumed for a list of values. -/
def listValFuel : ValList → ℕ
  | .nil => 1
  | .cons v tl => valFuel v + listValFuel tl + 1
/-- Fuel consumed for a record's field values. -/
def fieldsValFuel : FieldVals → ℕ
  | .nil => 1
  | .cons _ v tl => valFuel v + fieldsValFuel tl + 1
end

/-- The field names of a record value. -/
def namesOfV : FieldVals → List (List Char)
  | .nil => []
  | .cons name _ tl => name :: namesOfV tl

/-- Every field value can be found in `kvs` under its own name, serialized. -/
def fieldsLook : FieldVals → JsonObj → Prop
  | .nil, _ => True
  | .cons name v tl, kvs =>
    objLookup name kvs = some (toJson v) ∧ fieldsLook tl kvs

/-! ## Padding codec lemmas -/

theorem fromBytes2_take (l : PyBytes) :
    fromBytes2 (l.take PAD_INDICATOR_SIZE) = fromBytes2 l := by
  match l with
  | [] => rfl
  | [b0] => rfl
  | b0 :: b1 :: rest => rfl

theorem fromBytes2_toBytes2 (n : ℕ) (h : n < 65536) (rest : PyBytes) :
    fromBytes2 (toBytes2 n ++ rest) = n := by
  show n / 256 % 256 * 256 + n % 256 = n
  omega

theorem add_padding_ok (p : PyBytes) (size : ℕ) (hp : p.length ≤ size) :
    _add_padding p size false =
      Except.ok (toBytes2 (size - p.length) ++ p ++
        List.replicate (size - p.length) _PAD_BYTE) := by
  simp only [_add_padding]
  rw [if_neg (by omega : ¬ p.length > size)]
  simp [List.take_length]

theorem add_padding_error (p : PyBytes) (size : ℕ) (h : size < p.length) :
    _add_padding p size false = Except.error ⟨truncation_message⟩ := by
  simp only [_add_padding]
  rw [if_pos (by omega : p.length > size)]
  rfl

theorem add_padding_truncation (p : PyBytes) (size : ℕ) (h : size < p.length) :
    _add_padding p size true = Except.ok (toBytes2 0 ++ p.take size) := by
  simp only [_add_padding]
  rw [if_pos (by omega : p.length > size)]
  simp

theorem remove_padding_append (p : PyBytes) (size : ℕ) (hp : p.length ≤ size)
    (hs : size < 65536) :
    _remove_padding (toBytes2 (size - p.length) ++ p ++
      List.replicate (size - p.length) _PAD_BYTE) size = p := by
  have hfb : fromBytes2 ((toBytes2 (size - p.length) ++ p ++
      List.replicate (size - p.length) _PAD_BYTE).take PAD_INDICATOR_SIZE) =
      size - p.length := by
    rw [fromBytes2_take]
    show (size - p.length) / 256 % 256 * 256 + (size - p.length) % 256 = size - p.length
    omega
  simp only [_remove_padding, pySlice]
  rw [hfb]
  have hme : (size : ℤ) + (PAD_INDICATOR_SIZE : ℤ) - ((size - p.length : ℕ) : ℤ) =
      ((p.length + PAD_INDICATOR_SIZE : ℕ) : ℤ) := by
    simp only [PAD_INDICATOR_SIZE]
    omega
  rw [hme]
  have hstop : pyStop ((toBytes2 (size - p.length) ++ p ++
      List.replicate (size - p.length) _PAD_BYTE).length)
      (((p.length + PAD_INDICATOR_SIZE : ℕ) : ℤ)) = p.length + PAD_INDICATOR_SIZE := by
    simp only [pyStop]
    rw [if_neg (by omega : ¬ (((p.length + PAD_INDICATOR_SIZE : ℕ) : ℤ) < 0))]
    rw [Int.toNat_natCast]
    refine min_eq_left ?_
    simp only [List.length_append, List.length_replicate, toBytes2,
      List.length_cons, List.length_nil, PAD_INDICATOR_SIZE]
    omega
  rw [hstop]
  rw [List.take_left' (by
    simp only [List.length_append, toBytes2, List.length_cons, List.length_nil,
      PAD_INDICATOR_SIZE]
    omega : (toBytes2 (size - p.length) ++ p).length = p.length + PAD_INDICATOR_SIZE)]
  exact List.drop_left' (by rfl)

theorem remove_padding_truncated (p : PyBytes) (size : ℕ) (h : size ≤ p.length) :
    _remove_padding (toBytes2 0 ++ p.take size) size = p.take size := by
  simp only [_remove_padding, pySlice]
  have hfb : fromBytes2 ((toBytes2 0 ++ p.take size).take PAD_INDICATOR_SIZE) = 0 := by
    rw [fromBytes2_take]; rfl
  rw [hfb]
  have hme : (size : ℤ) + (PAD_INDICATOR_SIZE : ℤ) - ((0 : ℕ) : ℤ) =
      ((size + PAD_INDICATOR_SIZE : ℕ) : ℤ) := by
    simp only [PAD_INDICATOR_SIZE]; omega
  rw [hme]
  have hlen : (toBytes2 0 ++ p.take size).length = size + PAD_INDICATOR_SIZE := by
    simp only [List.length_append, toBytes2, List.length_cons, List.length_nil,
      List.length_take, PAD_INDICATOR_SIZE]
    omega
  have hstop : pyStop ((toBytes2 0 ++ p.take size).length)
      (((size + PAD_INDICATOR_SIZE : ℕ) : ℤ)) = size + PAD_INDICATOR_SIZE := by
    simp only [pyStop]
    rw [if_neg (by omega : ¬ (((size + PAD_INDICATOR_SIZE : ℕ) : ℤ) < 0))]
    rw [Int.toNat_natCast, hlen]
    exact min_eq_left (by omega)
  rw [hstop, List.take_of_length_le (by omega : (toBytes2 0 ++ p.take size).length ≤ size + PAD_INDICATOR_SIZE)]
  exact List.drop_left' (by rfl)

/-! ## Decimal rendering lemmas -/

theorem digitChar_isDigit (d : ℕ) (h : d < 10) : (Nat.digitChar d).isDigit = true := by
  interval_cases d <;> rfl

theorem natCharsGo_ne_nil (f n : ℕ) (acc : List Char) (h : 0 < f ∨ acc ≠ []) :
    natCharsGo f n acc ≠ [] := by
  induction f generalizing n acc with
  | zero =>
    cases h with
    | inl h0 => omega
    | inr hacc => simpa [natCharsGo] using hacc
  | succ f ih =>
    simp only [natCharsGo]
    by_cases hn : n < 10
    · simp [hn]
    · rw [if_neg hn]
      exact ih (n / 10) _ (Or.inr (by simp))

theorem natChars_ne_nil (n : ℕ) : natChars n ≠ [] :=
  natCharsGo_ne_nil (n + 1) n [] (Or.inl (by omega))

theorem natCharsGo_all_digit (f n : ℕ) (acc : List Char)
    (hacc : ∀ c ∈ acc, c.isDigit = true) :
    ∀ c ∈ natCharsGo f n acc, c.isDigit = true := by
  induction f generalizing n acc with
  | zero => simpa [natCharsGo] using hacc
  | succ f ih =>
    simp only [natCharsGo]
    by_cases hn : n < 10
    · rw [if_pos hn]
      intro c hc
      rcases List.mem_cons.mp hc with hc | hc
      · subst hc; exact digitChar_isDigit n hn
      · exact hacc c hc
    · rw [if_neg hn]
      refine ih (n / 10) _ ?_
      intro c hc
      rcases List.mem_cons.mp hc with hc | hc
      · subst hc; exact digitChar_isDigit (n % 10) (by omega)
      · exact hacc c hc

theorem natChars_all_digit (n : ℕ) : ∀ c ∈ natChars n, c.isDigit = true :=
  natCharsGo_all_digit (n + 1) n [] (by intro c hc; simp at hc)

theorem truncation_message_no_digit :
    ∀ c ∈ truncation_message.toList, c.isDigit = false := by decide

theorem no_numeral_in_truncation_message (m : ℕ) :
    ¬ ∃ l r : List Char, truncation_message.toList = l ++ natChars m ++ r := by
  rintro ⟨l, r, h⟩
  obtain ⟨c, t, hct⟩ : ∃ c t, natChars m = c :: t := by
    cases hnc : natChars m with
    | nil => exact absurd hnc (natChars_ne_nil m)
    | cons c t => exact ⟨c, t, rfl⟩
  have hdig : c.isDigit = true := natChars_all_digit m c (by rw [hct]; simp)
  have hmem : c ∈ truncation_message.toList := by
    rw [h, hct]; simp
  have := truncation_message_no_digit c hmem
  simp_all

/-! ## Claims about the padding codec -/

/-- C1: padding round trip — for every byte string `p` that fits (in
particular whenever `len(p) ≤ capacity`, capacity being the block size minus
the 2 indicator bytes, and including the empty string), decoding the block
produced by `_add_padding p size false` with `_remove_padding` returns
exactly `p`.  Stated for every `p.length ≤ size`, which covers the claim's
`capacity` under either reading (`size` the codec parameter or the total
block length); `size < 2^16` holds for every supported block size class. -/
theorem c1_padding_round_trip (size : ℕ) (p : PyBytes) (hsize : size < 65536)
    (hp : p.length ≤ size) :
    ∃ block : PyBytes,
      _add_padding p size false = Except.ok block ∧
      _remove_padding block size = p :=
  ⟨_, add_padding_ok p size hp, remove_padding_append p size hp hsize⟩

/-- Witness for C1 at the 512-byte block size class and payload `b"abc"`. -/
theorem c1_witness : ∃ block : PyBytes,
    _add_padding [97, 98, 99] PaddedDataSize.Bytes_512 false = Except.ok block ∧
    _remove_padding block PaddedDataSize.Bytes_512 = [97, 98, 99] :=
  c1_padding_round_trip PaddedDataSize.Bytes_512 [97, 98, 99]
    (by decide) (by decide)

/-- C2 (counterexample): the claim says the 2-byte indicator is the
big-endian encoding of `size - n` with `size` the *total block length*
(512), indicator bytes included in the accounting.  For the 3-byte payload
`b"abc"` the code stores the big-endian encoding of 507, not of
`512 - 3 = 509`. -/
theorem c2_counterexample :
    _add_padding [97, 98, 99] PaddedDataSize.Bytes_512 false = Except.ok abcBlock ∧
    abcBlock.take PAD_INDICATOR_SIZE ≠ toBytes2 (512 - 3) :=
  ⟨by rfl, by decide⟩

/-- C2 (amended): the 2-byte indicator is the big-endian encoding of
`capacity - n`, where `capacity` is the total block length minus the 2
indicator bytes (the `PaddedDataSize` value the codec receives as `size`);
that is, the indicator counts only the trailing filler bytes, excluding the
indicator bytes themselves. -/
theorem c2_indicator_filler_only (size : ℕ) (p : PyBytes) (hp : p.length ≤ size) :
    ∃ block : PyBytes,
      _add_padding p size false = Except.ok block ∧
      block.take PAD_INDICATOR_SIZE = toBytes2 (size - p.length) :=
  ⟨_, add_padding_ok p size hp, rfl⟩

/-- Witness for the amended C2 at the 512-byte class and payload `b"abc"`:
the indicator encodes `510 - 3 = 507`. -/
theorem c2_witness : ∃ block : PyBytes,
    _add_padding [97, 98, 99] PaddedDataSize.Bytes_512 false = Except.ok block ∧
    block.take PAD_INDICATOR_SIZE = toBytes2 (PaddedDataSize.Bytes_512 - 3) :=
  c2_indicator_filler_only PaddedDataSize.Bytes_512 [97, 98, 99] (by decide)

/-- C3: truncation guard — for every payload longer than the capacity,
encoding with `allow_truncation = false` fails with a `TruncationError` (no
partial output: the `Except` is an error), while encoding with
`allow_truncation = true` succeeds and the resulting block decodes to
exactly the first `capacity` bytes of the payload. -/
theorem c3_truncation_guard (size : ℕ) (p : PyBytes) (h : size < p.length) :
    _add_padding p size false = Except.error ⟨truncation_message⟩ ∧
    ∃ block : PyBytes,
      _add_padding p size true = Except.ok block ∧
      _remove_padding block size = p.take size :=
  ⟨add_padding_error p size h,
    ⟨_, add_padding_truncation p size h, remove_padding_truncated p size (by omega)⟩⟩

/-- Witness for C3 with a 3-byte payload against capacity 2. -/
theorem c3_witness :
    _add_padding [5, 6, 7] 2 false = Except.error ⟨truncation_message⟩ ∧
    ∃ block : PyBytes,
      _add_padding [5, 6, 7] 2 true = Except.ok block ∧
      _remove_padding block 2 = [5, 6, 7].take 2 :=
  c3_truncation_guard 2 [5, 6, 7] (by decide)

/-- C4: concrete 512-byte scenario — encoding `b"abc"` against the
`Bytes_512` class yields a 512-byte block whose bytes `[0:2]` are the
big-endian encoding of 507 (the bytes 1 and 251), bytes `[2:5]` are
`b"abc"`, and bytes `[5:512]` are `0x00` repeated 507 times; decoding the
block returns exactly `b"abc"`. -/
theorem c4_concrete_512 :
    _add_padding [97, 98, 99] PaddedDataSize.Bytes_512 false = Except.ok abcBlock ∧
    abcBlock.length = 512 ∧
    abcBlock.take 2 = toBytes2 507 ∧
    toBytes2 507 = [1, 251] ∧
    (abcBlock.drop 2).take 3 = [97, 98, 99] ∧
    abcBlock.drop 5 = List.replicate 507 0 ∧
    _remove_padding abcBlock PaddedDataSize.Bytes_512 = [97, 98, 99] :=
  ⟨by rfl, by rfl, by rfl, by rfl, by rfl, by decide, by rfl⟩

/-- C5: fixed output length — every successfully encoded block has length
exactly `size + PAD_INDICATOR_SIZE`, the total block length of the class
(512 for `Bytes_512`, i.e. 2 indicator bytes plus 510 bytes of capacity),
whether or not truncation was allowed. -/
theorem c5_fixed_length (size : ℕ) (p : PyBytes) (allow_truncation : Bool)
    (block : PyBytes) (h : _add_padding p size allow_truncation = Except.ok block) :
    block.length = size + PAD_INDICATOR_SIZE := by
  simp only [_add_padding] at h
  by_cases hlen : p.length > size
  · rw [if_pos hlen] at h
    cases allow_truncation with
    | false => exact absurd h (by simp)
    | true =>
      rw [if_pos rfl] at h
      obtain rfl : (toBytes2 (size - size) ++ p.take size ++
          List.replicate (size - size) _PAD_BYTE) = block := by
        simpa using h
      simp only [List.length_append, List.length_take, List.length_replicate,
        toBytes2, List.length_cons, List.length_nil, PAD_INDICATOR_SIZE]
      omega
  · rw [if_neg hlen] at h
    obtain rfl : (toBytes2 (size - p.length) ++ p.take p.length ++
        List.replicate (size - p.length) _PAD_BYTE) = block := by
      simpa using h
    simp only [List.length_append, List.length_take, List.length_replicate,
      toBytes2, List.length_cons, List.length_nil, PAD_INDICATOR_SIZE]
    omega

/-- Witness for C5: the `b"abc"` block against `Bytes_512` is 512 bytes. -/
theorem c5_witness : abcBlock.length = PaddedDataSize.Bytes_512 + PAD_INDICATOR_SIZE :=
  c5_fixed_length PaddedDataSize.Bytes_512 [97, 98, 99] false abcBlock (by rfl)

/-- C6: `_remove_padding` performs no indicator validation and is total —
for every input byte string and parsed indicator value (including values
outside `[0, size-2]`) it returns the Python slice
`padded[2 : size + 2 - padding_length]`, which is always a contiguous slice
of the input starting at offset 2 (never an exception); in particular an
indicator equal to `size + 2` yields the empty slice. -/
theorem c6_remove_padding_total (size : ℕ) (padded : PyBytes) :
    (∃ m : ℕ, _remove_padding padded size = (padded.drop PAD_INDICATOR_SIZE).take m) ∧
    (fromBytes2 (padded.take PAD_INDICATOR_SIZE) = size + PAD_INDICATOR_SIZE →
      _remove_padding padded size = []) := by
  constructor
  · refine ⟨pyStop padded.length ((size : ℤ) + (PAD_INDICATOR_SIZE : ℤ) -
      (fromBytes2 (padded.take PAD_INDICATOR_SIZE) : ℤ)) - PAD_INDICATOR_SIZE, ?_⟩
    simp only [_remove_padding, pySlice]
    exact List.drop_take ..
  · intro hind
    simp only [_remove_padding, pySlice, hind]
    have hme : (size : ℤ) + (PAD_INDICATOR_SIZE : ℤ) -
        ((size + PAD_INDICATOR_SIZE : ℕ) : ℤ) = 0 := by
      simp only [PAD_INDICATOR_SIZE]; omega
    rw [hme]
    simp [pyStop]

/-- Witness for C6's corrupted-indicator hypothesis: a 512-byte block whose
indicator reads 512 (`= size + 2`, out of range) decodes to the empty byte
string instead of raising. -/
theorem c6_witness : _remove_padding ([2, 0] ++ List.replicate 510 7) 510 = [] :=
  (c6_remove_padding_total 510 ([2, 0] ++ List.replicate 510 7)).2 (by rfl)

/-- C10: the `TruncationError` raised for an oversize payload carries the
literal message "Padded data exceeds allowed padded data size of {size}."
with the placeholder left uninterpolated (the Python literal is not an
f-string), so neither the codec parameter nor the total block size ever
appears in the message — indeed no numeral at all does. -/
theorem c10_truncation_message_literal (p : PyBytes) (size : ℕ) (h : size < p.length) :
    _add_padding p size false = Except.error ⟨truncation_message⟩ ∧
    truncation_message = "Padded data exceeds allowed padded data size of \x7bsize\x7d." ∧
    (¬ ∃ l r : List Char, truncation_message.toList = l ++ natChars size ++ r) ∧
    (¬ ∃ l r : List Char,
      truncation_message.toList = l ++ natChars (size + PAD_INDICATOR_SIZE) ++ r) :=
  ⟨add_padding_error p size h, rfl,
    no_numeral_in_truncation_message size,
    no_numeral_in_truncation_message (size + PAD_INDICATOR_SIZE)⟩

/-- Witness for C10 with a 3-byte payload against capacity 2. -/
theorem c10_witness :
    _add_padding [5, 6, 7] 2 false = Except.error ⟨truncation_message⟩ ∧
    truncation_message = "Padded data exceeds allowed padded data size of \x7bsize\x7d." ∧
    (¬ ∃ l r : List Char, truncation_message.toList = l ++ natChars 2 ++ r) ∧
    (¬ ∃ l r : List Char,
      truncation_message.toList = l ++ natChars (2 + PAD_INDICATOR_SIZE) ++ r) :=
  c10_truncation_message_literal [5, 6, 7] 2 (by decide)

/-! ## Decimal numeral round trip -/

theorem natCharsGo_eq_digits (f : ℕ) : ∀ (n : ℕ) (acc : List Char), n < f →
    natCharsGo f n acc =
      (if n = 0 then ['0'] else (Nat.digits 10 n).reverse.map Nat.digitChar) ++ acc := by
  induction f with
  | zero => intro n acc h; omega
  | succ f ih =>
    intro n acc _
    by_cases hn : n < 10
    · simp only [natCharsGo, if_pos hn]
      by_cases h0 : n = 0
      · subst h0; rfl
      · rw [if_neg h0]
        rw [Nat.digits_def' (by norm_num : 1 < 10) (by omega : 0 < n)]
        rw [Nat.mod_eq_of_lt hn, Nat.div_eq_of_lt hn]
        simp
    · simp only [natCharsGo, if_neg hn]
      have hdiv : n / 10 < n := Nat.div_lt_self (by omega) (by omega)
      rw [ih (n / 10) _ (by omega)]
      rw [if_neg (by omega : ¬ n / 10 = 0)]
      rw [if_neg (by omega : ¬ n = 0)]
      rw [Nat.digits_def' (by norm_num : 1 < 10) (by omega : 0 < n)]
      simp [List.append_assoc]

theorem natChars_eq_digits (n : ℕ) :
    natChars n =
      if n = 0 then ['0'] else (Nat.digits 10 n).reverse.map Nat.digitChar := by
  rw [natChars, natCharsGo_eq_digits (n + 1) n [] (by omega), List.append_nil]

theorem digitVal_digitChar (d : ℕ) (h : d < 10) : digitVal (Nat.digitChar d) = d := by
  interval_cases d <;> rfl

theorem foldl_horner (E : List ℕ) : ∀ a : ℕ, (∀ d ∈ E, d < 10) →
    List.foldl (fun x c => x * 10 + digitVal c) a (E.map Nat.digitChar) =
      a * 10 ^ E.length + Nat.ofDigits 10 E.reverse := by
  induction E with
  | nil => intro a _; simp
  | cons d E ih =>
    intro a hd
    simp only [List.map_cons, List.foldl_cons, List.reverse_cons]
    rw [digitVal_digitChar d (hd d (by simp))]
    rw [ih (a * 10 + d) (fun x hx => hd x (by simp [hx]))]
    rw [Nat.ofDigits_append]
    simp [Nat.ofDigits_singleton, List.length_cons, pow_succ]
    ring

theorem charsToNat_natChars (n : ℕ) : charsToNat (natChars n) = n := by
  rw [natChars_eq_digits]
  by_cases h0 : n = 0
  · subst h0; rfl
  · rw [if_neg h0]
    unfold charsToNat
    rw [foldl_horner ((Nat.digits 10 n).reverse) 0
      (fun d hd => Nat.digits_lt_base (by norm_num) (List.mem_reverse.mp hd))]
    simp [Nat.ofDigits_digits]

/-! ## Parser step lemmas -/

theorem skipWs_not_ws (c : Char) (h : isWsChar c = false) (l : List Char) :
    skipWs (c :: l) = c :: l := by
  simp [skipWs, h]

theorem digit_not_char (c : Char) (h : c.isDigit = true) (d : Char)
    (hd : d.isDigit = false) : c ≠ d := by
  intro heq
  subst heq
  rw [h] at hd
  exact absurd hd (by simp)

theorem digit_not_ws (c : Char) (h : c.isDigit = true) : isWsChar c = false := by
  by_contra hw
  have hw' : isWsChar c = true := by revert hw; cases isWsChar c <;> simp
  simp only [isWsChar, Bool.or_eq_true, decide_eq_true_eq] at hw'
  rcases hw' with ((h1 | h1) | h1) | h1 <;> (subst h1; exact absurd h (by decide))

theorem parseValue_null (g : ℕ) (r : List Char) :
    parseValue (g + 1) ('n' :: 'u' :: 'l' :: 'l' :: r) = some (Json.null, r) := by
  simp [parseValue, skipWs, isWsChar]

theorem parseValue_true (g : ℕ) (r : List Char) :
    parseValue (g + 1) ('t' :: 'r' :: 'u' :: 'e' :: r) = some (Json.bool true, r) := by
  simp [parseValue, skipWs, isWsChar]

theorem parseValue_false (g : ℕ) (r : List Char) :
    parseValue (g + 1) ('f' :: 'a' :: 'l' :: 's' :: 'e' :: r) =
      some (Json.bool false, r) := by
  simp [parseValue, skipWs, isWsChar]

theorem parseValue_quote (g : ℕ) (t : List Char) :
    parseValue (g + 1) ('\"' :: t) =
      (parseStrBody t).map (fun p => (Json.str p.1, p.2)) := by
  simp [parseValue, skipWs, isWsChar]

theorem parseValue_neg (g : ℕ) (t : List Char) :
    parseValue (g + 1) ('-' :: t) =
      (parseNatTok t).map (fun p => (Json.num (-(p.1 : ℤ)), p.2)) := by
  simp [parseValue, skipWs, isWsChar]

theorem parseValue_digit (g : ℕ) (c : Char) (h : c.isDigit = true) (t : List Char) :
    parseValue (g + 1) (c :: t) =
      (parseNatTok (c :: t)).map (fun p => (Json.num ((p.1 : ℕ) : ℤ), p.2)) := by
  have hws := digit_not_ws c h
  have hn := digit_not_char c h 'n' (by decide)
  have ht := digit_not_char c h 't' (by decide)
  have hf := digit_not_char c h 'f' (by decide)
  have hq := digit_not_char c h '\"' (by decide)
  have hb := digit_not_char c h '[' (by decide)
  have hob := digit_not_char c h '\x7b' (by decide)
  have hm := digit_not_char c h '-' (by decide)
  simp only [parseValue]
  rw [skipWs_not_ws c hws t]
  simp [hn, ht, hf, hq, hb, hob, hm, h]

theorem parseValue_arr_nil (g : ℕ) (t r : List Char) (h : skipWs t = ']' :: r) :
    parseValue (g + 1) ('[' :: t) = some (Json.arr JsonArr.nil, r) := by
  simp only [parseValue]
  rw [skipWs_not_ws '[' (by decide) t]
  simp [h]

theorem parseValue_arr_cons (g : ℕ) (t : List Char) (c2 : Char) (r2 : List Char)
    (h : skipWs t = c2 :: r2) (hc : c2 ≠ ']') :
    parseValue (g + 1) ('[' :: t) =
      (parseItems g t).map (fun p => (Json.arr p.1, p.2)) := by
  simp only [parseValue]
  rw [skipWs_not_ws '[' (by decide) t]
  simp [h, hc]

theorem parseValue_obj_nil (g : ℕ) (t r : List Char) (h : skipWs t = '\x7d' :: r) :
    parseValue (g + 1) ('\x7b' :: t) = some (Json.obj JsonObj.nil, r) := by
  simp only [parseValue]
  rw [skipWs_not_ws '\x7b' (by decide) t]
  simp [h]

theorem parseValue_obj_cons (g : ℕ) (t : List Char) (c2 : Char) (r2 : List Char)
    (h : skipWs t = c2 :: r2) (hc : c2 ≠ '\x7d') :
    parseValue (g + 1) ('\x7b' :: t) =
      (parsePairs g t).map (fun p => (Json.obj p.1, p.2)) := by
  simp only [parseValue]
  rw [skipWs_not_ws '\x7b' (by decide) t]
  simp [h, hc]

theorem parseItems_step (g : ℕ) (l : List Char) :
    parseItems (g + 1) l = (parseValue g l).bind (fun p =>
      match skipWs p.2 with
      | [] => none
      | c :: r =>
        if c = ',' then (parseItems g r).map (fun q => (JsonArr.cons p.1 q.1, q.2))
        else if c = ']' then some (JsonArr.cons p.1 JsonArr.nil, r)
        else none) := by
  rfl

theorem parsePairs_quote (g : ℕ) (t : List Char) :
    parsePairs (g + 1) ('\"' :: t) = (parseStrBody t).bind (fun pk =>
      match skipWs pk.2 with
      | [] => none
      | c2 :: r2 =>
        if c2 = ':' then
          (parseValue g r2).bind (fun pv =>
            match skipWs pv.2 with
            | [] => none
            | c3 :: r3 =>
              if c3 = ',' then
                (parsePairs g r3).map (fun q => (JsonObj.cons pk.1 pv.1 q.1, q.2))
              else if c3 = '\x7d' then some (JsonObj.cons pk.1 pv.1 JsonObj.nil, r3)
              else none)
        else none) := by
  simp only [parsePairs]
  rw [skipWs_not_ws '\"' (by decide) t]
  simp

/-! ## String and numeral token round trips -/

theorem parseStrBody_esc (s : List Char) : ∀ rest : List Char,
    parseStrBody (escChars s ++ '\"' :: rest) = some (s, rest) := by
  induction s with
  | nil =>
    intro rest
    simp only [escChars, List.map_nil, List.flatten_nil, List.nil_append]
    rw [parseStrBody.eq_def]
    simp
  | cons c s ih =>
    intro rest
    have hesc : escChars (c :: s) = escChar c ++ escChars s := by
      simp [escChars]
    rw [hesc]
    by_cases hc : c = '\"' ∨ c = '\\'
    · rw [escChar, if_pos hc]
      show parseStrBody ('\\' :: c :: (escChars s ++ '\"' :: rest)) = _
      simp [parseStrBody, hc, ih rest]
    · push_neg at hc
      rw [escChar, if_neg (by tauto)]
      show parseStrBody (c :: (escChars s ++ '\"' :: rest)) = _
      rw [parseStrBody.eq_def]
      simp [hc.1, hc.2, ih rest]

theorem takeDigits_append (ds : List Char) : ∀ rest : List Char,
    (∀ c ∈ ds, c.isDigit = true) → noDigitHead rest = true →
    takeDigits (ds ++ rest) = (ds, rest) := by
  induction ds with
  | nil =>
    intro rest _ hrest
    cases rest with
    | nil => rfl
    | cons c r =>
      have hcd : c.isDigit = false := by
        have : (!c.isDigit) = true := by simpa [noDigitHead] using hrest
        revert this; cases c.isDigit <;> simp
      simp [takeDigits, hcd]
  | cons c ds ih =>
    intro rest hds hrest
    have hc : c.isDigit = true := hds c (by simp)
    have hih := ih rest (fun x hx => hds x (by simp [hx])) hrest
    simp [takeDigits, hc, hih]

theorem parseNatTok_natChars (n : ℕ) (rest : List Char) (h : noDigitHead rest = true) :
    parseNatTok (natChars n ++ rest) = some (n, rest) := by
  unfold parseNatTok
  rw [takeDigits_append (natChars n) rest (natChars_all_digit n) h]
  simp [natChars_ne_nil n, charsToNat_natChars]

theorem natChars_cons (n : ℕ) : ∃ c t, natChars n = c :: t ∧ c.isDigit = true := by
  cases h : natChars n with
  | nil => exact absurd h (natChars_ne_nil n)
  | cons c t => exact ⟨c, t, rfl, natChars_all_digit n c (by rw [h]; simp)⟩

/-! ## Printer head characters and fuel bounds -/

theorem printJson_head (v : Json) :
    ∃ c t, printJson v = c :: t ∧ isWsChar c = false ∧ c ≠ ']' := by
  cases v with
  | null => exact ⟨'n', _, rfl, by decide, by decide⟩
  | bool b =>
    cases b with
    | true => exact ⟨'t', _, rfl, by decide, by decide⟩
    | false => exact ⟨'f', _, rfl, by decide, by decide⟩
  | num n =>
    by_cases hn : n < 0
    · exact ⟨'-', natChars (-n).toNat, by simp [printJson, hn], by decide, by decide⟩
    · obtain ⟨c, t, hct, hc⟩ := natChars_cons n.toNat
      exact ⟨c, t, by simp [printJson, hn, hct], digit_not_ws c hc,
        digit_not_char c hc ']' (by decide)⟩
  | str s => exact ⟨'\"', escChars s ++ ['\"'], rfl, by decide, by decide⟩
  | arr xs => exact ⟨'[', printItems xs ++ [']'], rfl, by decide, by decide⟩
  | obj kvs => exact ⟨'\x7b', printPairs kvs ++ ['\x7d'], rfl, by decide, by decide⟩

theorem jsonFuel_pos (v : Json) : 1 ≤ jsonFuel v := by
  cases v <;> simp [jsonFuel]

mutual
theorem jsonFuel_le : ∀ v : Json, jsonFuel v ≤ (printJson v).length
  | .null => by simp [jsonFuel, printJson]
  | .bool b => by cases b <;> simp [jsonFuel, printJson]
  | .num n => by
    simp only [jsonFuel, printJson]
    split
    · simp
    · have := natChars_ne_nil n.toNat
      exact List.length_pos.mpr this
  | .str s => by simp [jsonFuel, printJson, printKey]
  | .arr xs => by
    have h := itemsFuel_le xs
    simp only [jsonFuel, printJson, List.length_cons, List.length_append,
      List.length_singleton]
    omega
  | .obj kvs => by
    have h := pairsFuel_le kvs
    simp only [jsonFuel, printJson, List.length_cons, List.length_append,
      List.length_singleton]
    omega
theorem itemsFuel_le : ∀ xs : JsonArr, itemsFuel xs ≤ (printItems xs).length + 1
  | .nil => by simp [itemsFuel, printItems]
  | .cons v tl => by
    have h1 := jsonFuel_le v
    have h2 := itemsFuel_le tl
    cases tl with
    | nil =>
      simp only [itemsFuel, printItems, List.append_nil, List.length_append]
      omega
    | cons w tl2 =>
      simp only [itemsFuel, printItems, List.length_append, List.length_cons] at h2 ⊢
      omega
theorem pairsFuel_le : ∀ kvs : JsonObj, pairsFuel kvs ≤ (printPairs kvs).length + 1
  | .nil => by simp [pairsFuel, printPairs]
  | .cons k v tl => by
    have h1 := jsonFuel_le v
    have h2 := pairsFuel_le tl
    cases tl with
    | nil =>
      simp only [pairsFuel, printPairs, printKey, List.append_nil, List.length_append,
        List.length_cons]
      omega
    | cons k2 v2 tl2 =>
      simp only [pairsFuel, printPairs, printKey, List.length_append,
        List.length_cons] at h2 ⊢
      omega
end

/-! ## Parse–print round trip -/

theorem printItems_cons_shape (w : Json) (tl : JsonArr) (X : List Char) :
    ∃ c t2, printItems (JsonArr.cons w tl) ++ X = c :: t2 ∧
      isWsChar c = false ∧ c ≠ ']' := by
  obtain ⟨c, t, hct, hws, hbr⟩ := printJson_head w
  cases tl with
  | nil =>
    refine ⟨c, t ++ X, ?_, hws, hbr⟩
    rw [show printItems (JsonArr.cons w JsonArr.nil) = printJson w from by
      simp [printItems]]
    rw [hct]
    rfl
  | cons w2 tl2 =>
    refine ⟨c, t ++ (',' :: printItems (JsonArr.cons w2 tl2)) ++ X, ?_, hws, hbr⟩
    rw [show printItems (JsonArr.cons w (JsonArr.cons w2 tl2)) =
        printJson w ++ ',' :: printItems (JsonArr.cons w2 tl2) from by
      simp [printItems]]
    rw [hct]
    simp

theorem printPairs_cons_shape (k : List Char) (w : Json) (tl : JsonObj)
    (X : List Char) :
    ∃ t2, printPairs (JsonObj.cons k w tl) ++ X = '\"' :: t2 := by
  cases tl with
  | nil =>
    refine ⟨escChars k ++ '\"' :: ':' :: (printJson w ++ X), ?_⟩
    rw [show printPairs (JsonObj.cons k w JsonObj.nil) =
        printKey k ++ ':' :: printJson w from by simp [printPairs]]
    simp [printKey]
  | cons k2 w2 tl2 =>
    refine ⟨escChars k ++ '\"' :: ':' ::
      (printJson w ++ (',' :: printPairs (JsonObj.cons k2 w2 tl2) ++ X)), ?_⟩
    rw [show printPairs (JsonObj.cons k w (JsonObj.cons k2 w2 tl2)) =
        printKey k ++ ':' :: printJson w ++
          ',' :: printPairs (JsonObj.cons k2 w2 tl2) from by simp [printPairs]]
    simp [printKey]

theorem parse_print_all (fuel : ℕ) :
    (∀ (v : Json) (rest : List Char), jsonFuel v ≤ fuel → noDigitHead rest = true →
      parseValue fuel (printJson v ++ rest) = some (v, rest)) ∧
    (∀ (xs : JsonArr) (rest : List Char), xs ≠ JsonArr.nil → itemsFuel xs ≤ fuel →
      parseItems fuel (printItems xs ++ ']' :: rest) = some (xs, rest)) ∧
    (∀ (kvs : JsonObj) (rest : List Char), kvs ≠ JsonObj.nil → pairsFuel kvs ≤ fuel →
      parsePairs fuel (printPairs kvs ++ '\x7d' :: rest) = some (kvs, rest)) := by
  induction fuel using Nat.strong_induction_on with
  | _ fuel ih =>
    cases fuel with
    | zero =>
      refine ⟨?_, ?_, ?_⟩
      · intro v rest hf _
        have := jsonFuel_pos v
        omega
      · intro xs rest hne hf
        cases xs with
        | nil => exact absurd rfl hne
        | cons v tl => simp [itemsFuel] at hf
      · intro kvs rest hne hf
        cases kvs with
        | nil => exact absurd rfl hne
        | cons k v tl => simp [pairsFuel] at hf
    | succ g =>
      have ihg := ih g (by omega)
      refine ⟨?_, ?_, ?_⟩
      · intro v rest hfuel hrest
        cases v with
        | null => exact parseValue_null g rest
        | bool b =>
          cases b with
          | true => exact parseValue_true g rest
          | false => exact parseValue_false g rest
        | num n =>
          by_cases hn : n < 0
          · have hpr : printJson (Json.num n) ++ rest =
                '-' :: (natChars (-n).toNat ++ rest) := by
              simp [printJson, hn]
            rw [hpr, parseValue_neg g, parseNatTok_natChars (-n).toNat rest hrest]
            have hcast : ((((-n).toNat : ℕ) : ℤ)) = -n := Int.toNat_of_nonneg (by omega)
            simp [hcast]
          · obtain ⟨c, t, hct, hc⟩ := natChars_cons n.toNat
            have hpr : printJson (Json.num n) ++ rest = c :: (t ++ rest) := by
              simp [printJson, hn, hct]
            rw [hpr, parseValue_digit g c hc]
            have hback : c :: (t ++ rest) = natChars n.toNat ++ rest := by
              rw [hct]; rfl
            rw [hback, parseNatTok_natChars n.toNat rest hrest]
            have hcast : (((n.toNat : ℕ) : ℤ)) = n := Int.toNat_of_nonneg (by omega)
            simp [hcast]
        | str s =>
          have hpr : printJson (Json.str s) ++ rest =
              '\"' :: (escChars s ++ '\"' :: rest) := by
            simp [printJson, printKey]
          rw [hpr, parseValue_quote g, parseStrBody_esc s rest]
          rfl
        | arr xs =>
          cases xs with
          | nil =>
            have hpr : printJson (Json.arr JsonArr.nil) ++ rest =
                '[' :: (']' :: rest) := by
              simp [printJson, printItems]
            rw [hpr]
            exact parseValue_arr_nil g _ rest (skipWs_not_ws ']' (by decide) rest)
          | cons w tl =>
            have hpr : printJson (Json.arr (JsonArr.cons w tl)) ++ rest =
                '[' :: (printItems (JsonArr.cons w tl) ++ ']' :: rest) := by
              simp [printJson]
            rw [hpr]
            obtain ⟨c, t2, hshape, hws, hbr⟩ :=
              printItems_cons_shape w tl (']' :: rest)
            rw [parseValue_arr_cons g _ c t2
              (by rw [hshape]; exact skipWs_not_ws c hws t2) hbr]
            rw [ihg.2.1 (JsonArr.cons w tl) rest (by simp)
              (by simp only [jsonFuel] at hfuel; omega)]
            rfl
        | obj kvs =>
          cases kvs with
          | nil =>
            have hpr : printJson (Json.obj JsonObj.nil) ++ rest =
                '\x7b' :: ('\x7d' :: rest) := by
              simp [printJson, printPairs]
            rw [hpr]
            exact parseValue_obj_nil g _ rest (skipWs_not_ws '\x7d' (by decide) rest)
          | cons k w tl =>
            have hpr : printJson (Json.obj (JsonObj.cons k w tl)) ++ rest =
                '\x7b' :: (printPairs (JsonObj.cons k w tl) ++ '\x7d' :: rest) := by
              simp [printJson]
            rw [hpr]
            obtain ⟨t2, hshape⟩ := printPairs_cons_shape k w tl ('\x7d' :: rest)
            rw [parseValue_obj_cons g _ '\"' t2
              (by rw [hshape]; exact skipWs_not_ws '\"' (by decide) t2) (by decide)]
            rw [ihg.2.2 (JsonObj.cons k w tl) rest (by simp)
              (by simp only [jsonFuel] at hfuel; omega)]
            rfl
      · intro xs rest hne hfuel
        cases xs with
        | nil => exact absurd rfl hne
        | cons w tl =>
          rw [parseItems_step]
          cases tl with
          | nil =>
            have hpr : printItems (JsonArr.cons w JsonArr.nil) ++ ']' :: rest =
                printJson w ++ (']' :: rest) := by
              rw [show printItems (JsonArr.cons w JsonArr.nil) = printJson w from by
                simp [printItems]]
            rw [hpr]
            rw [ihg.1 w (']' :: rest)
              (by simp only [itemsFuel] at hfuel; omega) (by rfl)]
            simp [skipWs_not_ws ']' (by decide)]
          | cons w2 tl2 =>
            have hpr : printItems (JsonArr.cons w (JsonArr.cons w2 tl2)) ++
                ']' :: rest =
                printJson w ++
                  (',' :: (printItems (JsonArr.cons w2 tl2) ++ ']' :: rest)) := by
              rw [show printItems (JsonArr.cons w (JsonArr.cons w2 tl2)) =
                  printJson w ++ ',' :: printItems (JsonArr.cons w2 tl2) from by
                simp [printItems]]
              simp
            rw [hpr]
            have hfw : jsonFuel w ≤ g := by
              simp only [itemsFuel] at hfuel
              omega
            rw [ihg.1 w _ hfw (by rfl)]
            have hftl : itemsFuel (JsonArr.cons w2 tl2) ≤ g := by
              have := jsonFuel_pos w
              simp only [itemsFuel] at hfuel ⊢
              omega
            have hrec := ihg.2.1 (JsonArr.cons w2 tl2) rest (by simp) hftl
            simp [skipWs_not_ws ',' (by decide), hrec]
      · intro kvs rest hne hfuel
        cases kvs with
        | nil => exact absurd rfl hne
        | cons k w tl =>
          cases tl with
          | nil =>
            have hpr : printPairs (JsonObj.cons k w JsonObj.nil) ++ '\x7d' :: rest =
                '\"' :: (escChars k ++ '\"' :: (':' ::
                  (printJson w ++ ('\x7d' :: rest)))) := by
              rw [show printPairs (JsonObj.cons k w JsonObj.nil) =
                  printKey k ++ ':' :: printJson w from by simp [printPairs]]
              simp [printKey]
            rw [hpr, parsePairs_quote g, parseStrBody_esc k]
            have hfw : jsonFuel w ≤ g := by
              simp only [pairsFuel] at hfuel
              omega
            rw [show (':' : Char) :: (printJson w ++ ('\x7d' :: rest)) =
              ':' :: (printJson w ++ ('\x7d' :: rest)) from rfl]
            simp [skipWs_not_ws ':' (by decide), skipWs_not_ws '\x7d' (by decide),
              ihg.1 w ('\x7d' :: rest) hfw (by rfl)]
          | cons k2 w2 tl2 =>
            have hpr : printPairs (JsonObj.cons k w (JsonObj.cons k2 w2 tl2)) ++
                '\x7d' :: rest =
                '\"' :: (escChars k ++ '\"' :: (':' :: (printJson w ++
                  (',' :: (printPairs (JsonObj.cons k2 w2 tl2) ++
                    '\x7d' :: rest))))) := by
              rw [show printPairs (JsonObj.cons k w (JsonObj.cons k2 w2 tl2)) =
                  printKey k ++ ':' :: printJson w ++
                    ',' :: printPairs (JsonObj.cons k2 w2 tl2) from by
                simp [printPairs]]
              simp [printKey]
            rw [hpr, parsePairs_quote g, parseStrBody_esc k]
            have hfw : jsonFuel w ≤ g := by
              simp only [pairsFuel] at hfuel
              omega
            have hftl : pairsFuel (JsonObj.cons k2 w2 tl2) ≤ g := by
              have := jsonFuel_pos w
              simp only [pairsFuel] at hfuel ⊢
              omega
            have hrec := ihg.2.2 (JsonObj.cons k2 w2 tl2) rest (by simp) hftl
            have hval := ihg.1 w
              (',' :: (printPairs (JsonObj.cons k2 w2 tl2) ++ '\x7d' :: rest))
              hfw (by rfl)
            simp [skipWs_not_ws ':' (by decide), skipWs_not_ws ',' (by decide),
              hval, hrec]

theorem jsonLoads_printJson (j : Json) : jsonLoads (printJson j) = some j := by
  have hfuel : jsonFuel j ≤ 2 * (printJson j).length + 2 := by
    have := jsonFuel_le j
    omega
  have h := (parse_print_all (2 * (printJson j).length + 2)).1 j [] hfuel (by rfl)
  rw [List.append_nil] at h
  simp [jsonLoads, h, skipWs]

/-! ## Typed reconstruction round trip -/

theorem parseDecimal_natChars (n : ℕ) : parseDecimal (natChars n) = some n := by
  unfold parseDecimal
  rw [if_pos ⟨natChars_ne_nil n, by
    rw [List.all_eq_true]
    exact fun c hc => natChars_all_digit n c hc⟩]
  rw [charsToNat_natChars]

theorem charsToNat_pad2 (m : ℕ) (hm : m < 100) :
    charsToNat [Nat.digitChar (m / 10 % 10), Nat.digitChar (m % 10)] = m := by
  simp only [charsToNat, List.foldl_cons, List.foldl_nil,
    digitVal_digitChar (m / 10 % 10) (Nat.mod_lt _ (by norm_num)),
    digitVal_digitChar (m % 10) (Nat.mod_lt _ (by norm_num))]
  omega

theorem charsToNat_pad4 (m : ℕ) (hm : m < 10000) :
    charsToNat [Nat.digitChar (m / 1000 % 10), Nat.digitChar (m / 100 % 10),
      Nat.digitChar (m / 10 % 10), Nat.digitChar (m % 10)] = m := by
  simp only [charsToNat, List.foldl_cons, List.foldl_nil,
    digitVal_digitChar (m / 1000 % 10) (Nat.mod_lt _ (by norm_num)),
    digitVal_digitChar (m / 100 % 10) (Nat.mod_lt _ (by norm_num)),
    digitVal_digitChar (m / 10 % 10) (Nat.mod_lt _ (by norm_num)),
    digitVal_digitChar (m % 10) (Nat.mod_lt _ (by norm_num))]
  omega

theorem parseIso_isoChars (y mo d h mi s : ℕ) (hy : y < 10000) (hmo : mo < 100)
    (hd : d < 100) (hh : h < 100) (hmi : mi < 100) (hs : s < 100) :
    parseIso (isoChars y mo d h mi s) = some (y, mo, d, h, mi, s) := by
  have hdig : ∀ m : ℕ, (Nat.digitChar (m % 10)).isDigit = true := fun m =>
    digitChar_isDigit (m % 10) (Nat.mod_lt _ (by norm_num))
  have e : isoChars y mo d h mi s =
      [Nat.digitChar (y / 1000 % 10), Nat.digitChar (y / 100 % 10),
       Nat.digitChar (y / 10 % 10), Nat.digitChar (y % 10), '-',
       Nat.digitChar (mo / 10 % 10), Nat.digitChar (mo % 10), '-',
       Nat.digitChar (d / 10 % 10), Nat.digitChar (d % 10), 'T',
       Nat.digitChar (h / 10 % 10), Nat.digitChar (h % 10), ':',
       Nat.digitChar (mi / 10 % 10), Nat.digitChar (mi % 10), ':',
       Nat.digitChar (s / 10 % 10), Nat.digitChar (s % 10)] := by
    simp [isoChars, pad4, pad2]
  rw [e]
  simp only [parseIso]
  rw [if_pos (by simp [hdig])]
  rw [charsToNat_pad4 y hy, charsToNat_pad2 mo hmo, charsToNat_pad2 d hd,
    charsToNat_pad2 h hh, charsToNat_pad2 mi hmi, charsToNat_pad2 s hs]

theorem hasTypeFields_names : ∀ (fvs : FieldVals) (fields : Fields),
    hasTypeFields fvs fields = true → namesOfV fvs = namesOf fields
  | .nil, .nil, _ => rfl
  | .nil, .cons n t tl, h => by simp [hasTypeFields] at h
  | .cons n v tlv, .nil, h => by simp [hasTypeFields] at h
  | .cons n v tlv, .cons n2 t tlf, h => by
    simp only [hasTypeFields, Bool.and_eq_true, decide_eq_true_eq] at h
    obtain ⟨⟨hn, _⟩, htl⟩ := h
    simp [namesOfV, namesOf, hn, hasTypeFields_names tlv tlf htl]

theorem nameNotIn_spec : ∀ (name : List Char) (fs : Fields),
    nameNotIn name fs = true → ∀ m ∈ namesOf fs, m ≠ name
  | name, .nil, _ => by intro m hm; simp [namesOf] at hm
  | name, .cons n t tl, h => by
    simp only [nameNotIn, Bool.and_eq_true, decide_eq_true_eq] at h
    intro m hm
    rcases List.mem_cons.mp hm with hm | hm
    · subst hm; exact h.1
    · exact nameNotIn_spec name tl h.2 m hm

theorem objLookup_cons_ne (name k : List Char) (j : Json) (kvs : JsonObj)
    (h : k ≠ name) : objLookup name (JsonObj.cons k j kvs) = objLookup name kvs := by
  simp [objLookup, h]

theorem fieldsLook_cons_skip : ∀ (fvs : FieldVals) (name : List Char) (j : Json)
    (kvs : JsonObj), (∀ m ∈ namesOfV fvs, m ≠ name) → fieldsLook fvs kvs →
    fieldsLook fvs (JsonObj.cons name j kvs)
  | .nil, _, _, _, _, _ => trivial
  | .cons n v tlv, name, j, kvs, hnm, hlook => by
    obtain ⟨h1, h2⟩ := hlook
    refine ⟨?_, fieldsLook_cons_skip tlv name j kvs
      (fun m hm => hnm m (by simp [namesOfV, hm])) h2⟩
    rw [objLookup_cons_ne n name j kvs
      (fun heq => hnm n (by simp [namesOfV]) (heq ▸ rfl))]
    exact h1

theorem fieldsLook_self : ∀ (fields : Fields) (fvs : FieldVals),
    hasTypeFields fvs fields = true → nodupNames fields = true →
    fieldsLook fvs (toJsonObj fvs)
  | .nil, .nil, _, _ => trivial
  | .nil, .cons n v tl, h, _ => by simp [hasTypeFields] at h
  | .cons n2 t tlf, .nil, h, _ => by simp [hasTypeFields] at h
  | .cons n2 t tlf, .cons n v tlv, h, hnodup => by
    simp only [hasTypeFields, Bool.and_eq_true, decide_eq_true_eq] at h
    obtain ⟨⟨hn, _⟩, htl⟩ := h
    simp only [nodupNames, Bool.and_eq_true] at hnodup
    refine ⟨by simp [toJsonObj, objLookup], ?_⟩
    refine fieldsLook_cons_skip tlv n (toJson v) (toJsonObj tlv) ?_
      (fieldsLook_self tlf tlv htl hnodup.2)
    intro m hm
    rw [hasTypeFields_names tlv tlf htl] at hm
    have := nameNotIn_spec n2 tlf hnodup.1 m hm
    subst hn
    exact this

theorem valFuel_pos (v : DomainValue) : 1 ≤ valFuel v := by
  cases v <;> simp [valFuel]

mutual
theorem valFuel_le_dj : ∀ v : DomainValue, valFuel v ≤ djFuel (toJson v)
  | .vBool b => by simp [valFuel, toJson, djFuel]
  | .vInt n => by simp [valFuel, toJson, djFuel]
  | .vStr s => by simp [valFuel, toJson, djFuel]
  | .vBigInteger n => by simp [valFuel, toJson, djFuel]
  | .vElementModP n => by simp [valFuel, toJson, djFuel]
  | .vElementModQ n => by simp [valFuel, toJson, djFuel]
  | .vDatetime y mo d h mi s => by simp [valFuel, toJson, djFuel]
  | .vEnum k => by simp [valFuel, toJson, djFuel]
  | .vList items => by
    have h := listValFuel_le_dj items
    simp only [valFuel, toJson, djFuel]
    omega
  | .vRecord fvs => by
    have h := fieldsValFuel_le_dj fvs
    simp only [valFuel, toJson, djFuel]
    omega
theorem listValFuel_le_dj : ∀ vs : ValList, listValFuel vs ≤ arrDjFuel (toJsonArr vs)
  | .nil => by simp [listValFuel, toJsonArr, arrDjFuel]
  | .cons v tl => by
    have h1 := valFuel_le_dj v
    have h2 := listValFuel_le_dj tl
    simp only [listValFuel, toJsonArr, arrDjFuel]
    omega
theorem fieldsValFuel_le_dj : ∀ fvs : FieldVals,
    fieldsValFuel fvs ≤ objDjFuel (toJsonObj fvs)
  | .nil => by simp [fieldsValFuel, toJsonObj, objDjFuel]
  | .cons n v tl => by
    have h1 := valFuel_le_dj v
    have h2 := fieldsValFuel_le_dj tl
    simp only [fieldsValFuel, toJsonObj, objDjFuel]
    omega
end

theorem from_to_all (fuel : ℕ) :
    (∀ (t : DomainType) (v : DomainValue), hasType v t = true → valFuel v ≤ fuel →
      fromJsonF fuel t (toJson v) = some v) ∧
    (∀ (t : DomainType) (vs : ValList), hasTypeList vs t = true →
      listValFuel vs ≤ fuel → fromJsonArrF fuel t (toJsonArr vs) = some vs) ∧
    (∀ (fields : Fields) (fvs : FieldVals) (kvs : JsonObj),
      hasTypeFields fvs fields = true → fieldsLook fvs kvs →
      fieldsValFuel fvs ≤ fuel → fromJsonFieldsF fuel fields kvs = some fvs) := by
  induction fuel using Nat.strong_induction_on with
  | _ fuel ih =>
    cases fuel with
    | zero =>
      refine ⟨?_, ?_, ?_⟩
      · intro t v _ hf
        have := valFuel_pos v
        omega
      · intro t vs _ hf
        cases vs with
        | nil => simp [listValFuel] at hf
        | cons v tl => simp [listValFuel] at hf
      · intro fields fvs kvs _ _ hf
        cases fvs with
        | nil => simp [fieldsValFuel] at hf
        | cons n v tl => simp [fieldsValFuel] at hf
    | succ g =>
      have ihg := ih g (by omega)
      refine ⟨?_, ?_, ?_⟩
      · intro t v htype hfuel
        cases v with
        | vBool b => cases t <;> simp [hasType] at htype <;> simp [toJson, fromJsonF]
        | vInt n => cases t <;> simp [hasType] at htype <;> simp [toJson, fromJsonF]
        | vStr s => cases t <;> simp [hasType] at htype <;> simp [toJson, fromJsonF]
        | vBigInteger n =>
          cases t <;> simp [hasType] at htype <;>
            simp [toJson, fromJsonF, parseDecimal_natChars]
        | vElementModP n =>
          cases t <;> simp [hasType] at htype <;>
            simp [toJson, fromJsonF, parseDecimal_natChars]
        | vElementModQ n =>
          cases t <;> simp [hasType] at htype <;>
            simp [toJson, fromJsonF, parseDecimal_natChars]
        | vDatetime y mo d h mi s =>
          cases t <;> simp [hasType] at htype
          case tDatetime =>
            simp [toJson, fromJsonF,
              parseIso_isoChars y mo d h mi s (by omega) (by omega) (by omega)
                (by omega) (by omega) (by omega)]
        | vEnum k =>
          cases t <;> simp [hasType] at htype <;>
            simp [toJson, fromJsonF, htype, Int.toNat_natCast]
        | vList items =>
          cases t <;> simp [hasType] at htype
          case tList elem =>
            have hf : listValFuel items ≤ g := by
              simp only [valFuel] at hfuel
              omega
            simp [toJson, fromJsonF, ihg.2.1 elem items htype hf]
        | vRecord fvs =>
          cases t <;> simp [hasType] at htype
          case tRecord fields =>
            obtain ⟨h1, h2⟩ := htype
            have hf : fieldsValFuel fvs ≤ g := by
              simp only [valFuel] at hfuel
              omega
            simp [toJson, fromJsonF,
              ihg.2.2 fields fvs (toJsonObj fvs) h1 (fieldsLook_self fields fvs h1 h2) hf]
      · intro t vs htype hfuel
        cases vs with
        | nil => simp [toJsonArr, fromJsonArrF]
        | cons v tl =>
          simp only [hasTypeList, Bool.and_eq_true] at htype
          have hf1 : valFuel v ≤ g := by
            simp only [listValFuel] at hfuel
            omega
          have hf2 : listValFuel tl ≤ g := by
            have := valFuel_pos v
            simp only [listValFuel] at hfuel
            omega
          simp [toJsonArr, fromJsonArrF, ihg.1 t v htype.1 hf1,
            ihg.2.1 t tl htype.2 hf2]
      · intro fields fvs kvs htype hlook hfuel
        cases fvs with
        | nil =>
          cases fields with
          | nil => simp [fromJsonFieldsF]
          | cons n2 t tlf => simp [hasTypeFields] at htype
        | cons n v tlv =>
          cases fields with
          | nil => simp [hasTypeFields] at htype
          | cons n2 t tlf =>
            simp only [hasTypeFields, Bool.and_eq_true, decide_eq_true_eq] at htype
            obtain ⟨⟨hn, h1⟩, h2⟩ := htype
            obtain ⟨hl1, hl2⟩ := hlook
            subst hn
            have hf1 : valFuel v ≤ g := by
              simp only [fieldsValFuel] at hfuel
              omega
            have hf2 : fieldsValFuel tlv ≤ g := by
              have := valFuel_pos v
              simp only [fieldsValFuel] at hfuel
              omega
            simp [fromJsonFieldsF, hl1, ihg.1 t v h1 hf1,
              ihg.2.2 tlf tlv kvs h2 hl2 hf2]

theorem fromJson_toJson (t : DomainType) (v : DomainValue) (h : hasType v t = true) :
    fromJson t (toJson v) = some v := by
  unfold fromJson
  exact (from_to_all (djFuel (toJson v))).1 t v h (valFuel_le_dj v)

/-! ## Claims about the typed serializer -/

/-- C7: malformed JSON rejection — for every input text that the JSON parser
rejects (e.g. "\x7bnot json"), `from_raw` fails with the distinct
`ParseError` kind and never returns a silently defaulted value. -/
theorem c7_malformed_json (type_ : DomainType) (text : List Char)
    (h : jsonLoads text = none) :
    from_raw type_ text = Except.error DeserializeError.parseError := by
  simp [from_raw, h]

/-- Witness for C7 at the spec's example input "\x7bnot json". -/
theorem c7_witness :
    from_raw DomainType.tInt ("\x7bnot json".toList) =
      Except.error DeserializeError.parseError :=
  c7_malformed_json DomainType.tInt ("\x7bnot json".toList) (by rfl)

/-- C8: serializer round trip — for every value `v` of a supported domain
type `t` (structural booleans, integers, strings, lists and records, and the
coercion-registry scalars: ISO-8601 datetimes, big integers, group elements,
integer-cast enumerations), deserializing the serialized JSON text of `v` at
`t` yields exactly `v`. -/
theorem c8_serializer_round_trip (t : DomainType) (v : DomainValue)
    (h : hasType v t = true) : from_raw t (to_raw v) = Except.ok v := by
  simp only [from_raw, to_raw, jsonLoads_printJson (toJson v),
    fromJson_toJson t v h]

/-- Witness for C8: a record with an integer field, a registry-coded big
integer field, a datetime field and a list-of-enum field round trips. -/
theorem c8_witness :
    from_raw
      (DomainType.tRecord (Fields.cons ("count".toList) DomainType.tInt
        (Fields.cons ("key".toList) DomainType.tBigInteger
          (Fields.cons ("created".toList) DomainType.tDatetime
            (Fields.cons ("states".toList) (DomainType.tList (DomainType.tEnum 4))
              Fields.nil)))))
      (to_raw (DomainValue.vRecord (FieldVals.cons ("count".toList)
        (DomainValue.vInt (-12))
        (FieldVals.cons ("key".toList) (DomainValue.vBigInteger 987654321)
          (FieldVals.cons ("created".toList) (DomainValue.vDatetime 2022 11 5 9 30 7)
            (FieldVals.cons ("states".toList)
              (DomainValue.vList (ValList.cons (DomainValue.vEnum 2)
                (ValList.cons (DomainValue.vEnum 0) ValList.nil)))
              FieldVals.nil)))))) =
    Except.ok (DomainValue.vRecord (FieldVals.cons ("count".toList)
      (DomainValue.vInt (-12))
      (FieldVals.cons ("key".toList) (DomainValue.vBigInteger 987654321)
        (FieldVals.cons ("created".toList) (DomainValue.vDatetime 2022 11 5 9 30 7)
          (FieldVals.cons ("states".toList)
            (DomainValue.vList (ValList.cons (DomainValue.vEnum 2)
              (ValList.cons (DomainValue.vEnum 0) ValList.nil)))
            FieldVals.nil))))) :=
  c8_serializer_round_trip _ _ (by rfl)

/-- C9: the public `padded_encode` never truncates — it calls `_add_padding`
without the `allow_truncation` argument (so with its default `false`), and
for every value whose serialized UTF-8 byte length exceeds the capacity it
raises `TruncationError`; the lossy truncation path is unreachable through
`padded_encode`. -/
theorem c9_padded_encode_never_truncates (data : DomainValue) (size : ℕ)
    (h : size < (utf8Encode (to_raw data)).length) :
    padded_encode data size = Except.error ⟨truncation_message⟩ := by
  unfold padded_encode
  exact add_padding_error (utf8Encode (to_raw data)) size h

/-- Witness for C9: the integer 12345 serializes to 5 bytes, which do not
fit a capacity-3 block. -/
theorem c9_witness :
    padded_encode (DomainValue.vInt 12345) 3 = Except.error ⟨truncation_message⟩ :=
  c9_padded_encode_never_truncates (DomainValue.vInt 12345) 3 (by decide)
